import Mathlib

/-!
Verification of the event-history tree builder and timeline projection of the
loom workflow console.

The Go source is shallowly embedded:
* `time.Time` values become `Int` (nanoseconds since Go's zero time, so
  `t.IsZero()` becomes `t = 0`, `a.Before b` becomes `a < b`, `a.After b`
  becomes `a > b`, and `a.Sub b` becomes `a - b`);
* `time.Now()` becomes an explicit `now : Int` parameter;
* `float64` (the timeline zoom level) is modelled as `ℚ`;
* Go maps from `int64` to node pointers become association lists from `Int`
  to indices into the root list (nodes are mutated in place in Go; here the
  root at that index is replaced by its updated copy);
* the `map[int64]bool` processed set becomes a `List Int` queried with
  `contains`.
-/

namespace Loom

/-- `EventGroupType` from the tree builder: the eight group kinds. -/
inductive EventGroupType where
  | GroupWorkflow
  | GroupWorkflowTask
  | GroupActivity
  | GroupTimer
  | GroupChildWorkflow
  | GroupSignal
  | GroupMarker
  | GroupOther
deriving DecidableEq

/-- `EnhancedHistoryEvent`: one entry of the execution history log.  The Go
struct definition is not in the analysed tree; its fields are reconstructed
from their uses in `BuildEventTree` (ID, Type, Time, ScheduledEventID,
StartedEventID, InitiatedEventID, Attempt, TimerID, ActivityType,
ChildWorkflowType) and the base `HistoryEvent` struct (ID, Type, Time,
Details).  The Go field `Type` is spelled `Typ` because `Type` is reserved
in Lean. -/
structure EnhancedHistoryEvent where
  ID : Int
  Typ : String
  Time : Int
  Details : String
  ScheduledEventID : Int
  StartedEventID : Int
  InitiatedEventID : Int
  Attempt : Int
  TimerID : String
  ActivityType : String
  ChildWorkflowType : String
deriving DecidableEq

/-- The non-recursive fields of `EventTreeNode`.  Lean structures cannot be
recursive, so the Go struct is split into this core plus the `Children`
list, recombined in `EventTreeNode`. -/
structure NodeCore where
  Name : String
  Typ : EventGroupType
  Status : String
  StartTime : Int
  EndTime : Option Int
  Duration : Int
  Events : List EnhancedHistoryEvent
  Collapsed : Bool
  Attempts : Int
deriving DecidableEq

/-- `EventTreeNode`: a reconstructed logical operation, with nested attempt
children. -/
inductive EventTreeNode where
  | mk (core : NodeCore) (Children : List EventTreeNode)

/-- The non-recursive fields of a node. -/
def EventTreeNode.core : EventTreeNode → NodeCore
  | .mk c _ => c

/-- The attempt children of a node. -/
def EventTreeNode.Children : EventTreeNode → List EventTreeNode
  | .mk _ ch => ch

def EventTreeNode.Name (n : EventTreeNode) : String := n.core.Name

def EventTreeNode.Typ (n : EventTreeNode) : EventGroupType := n.core.Typ

def EventTreeNode.Status (n : EventTreeNode) : String := n.core.Status

def EventTreeNode.StartTime (n : EventTreeNode) : Int := n.core.StartTime

def EventTreeNode.EndTime (n : EventTreeNode) : Option Int := n.core.EndTime

def EventTreeNode.Duration (n : EventTreeNode) : Int := n.core.Duration

def EventTreeNode.Events (n : EventTreeNode) : List EnhancedHistoryEvent :=
  n.core.Events

def EventTreeNode.Attempts (n : EventTreeNode) : Int := n.core.Attempts

/-- A fresh node as created by the builder's Go struct literals: `Duration`,
`Collapsed`, `Attempts` and `Children` take their Go zero values. -/
def mkNode (name : String) (typ : EventGroupType) (status : String)
    (start : Int) (endT : Option Int) (evs : List EnhancedHistoryEvent) :
    EventTreeNode :=
  .mk ⟨name, typ, status, start, endT, 0, evs, false, 0⟩ []

/-- `extractWorkflowStatus` from the builder. -/
def extractWorkflowStatus (eventType : String) : String :=
  if eventType = "WorkflowExecutionCompleted" then "Completed"
  else if eventType = "WorkflowExecutionFailed" then "Failed"
  else if eventType = "WorkflowExecutionTimedOut" then "TimedOut"
  else if eventType = "WorkflowExecutionCanceled" then "Canceled"
  else if eventType = "WorkflowExecutionTerminated" then "Terminated"
  else if eventType = "WorkflowExecutionContinuedAsNew" then "ContinuedAsNew"
  else "Unknown"

/-- `extractActivityStatus` from the builder. -/
def extractActivityStatus (eventType : String) : String :=
  if eventType = "ActivityTaskCompleted" then "Completed"
  else if eventType = "ActivityTaskFailed" then "Failed"
  else if eventType = "ActivityTaskTimedOut" then "TimedOut"
  else if eventType = "ActivityTaskCanceled" then "Canceled"
  else "Unknown"

/-- `extractChildWorkflowStatus` from the builder. -/
def extractChildWorkflowStatus (eventType : String) : String :=
  if eventType = "ChildWorkflowExecutionCompleted" then "Completed"
  else if eventType = "ChildWorkflowExecutionFailed" then "Failed"
  else if eventType = "ChildWorkflowExecutionTimedOut" then "TimedOut"
  else if eventType = "ChildWorkflowExecutionCanceled" then "Canceled"
  else if eventType = "ChildWorkflowExecutionTerminated" then "Terminated"
  else "Unknown"

/-- `extractWorkflowTaskStatus` from the builder. -/
def extractWorkflowTaskStatus (eventType : String) : String :=
  if eventType = "WorkflowTaskCompleted" then "Completed"
  else if eventType = "WorkflowTaskFailed" then "Failed"
  else if eventType = "WorkflowTaskTimedOut" then "TimedOut"
  else "Unknown"

/-- `strings.HasPrefix`, modelled on the character list (rather than with
`String.startsWith`, which is compiled to an opaque native function and
would not reduce in proofs). -/
def hasPrefixStr (s p : String) : Bool := p.data.isPrefixOf s.data

/-- Replace the element at index `i` by its image under `f`; identity when the
index is out of range.  Models the in-place mutation, through a map-held
pointer, of a node that also sits in the Go `rootNodes` slice. -/
def updateRoot (l : List EventTreeNode) (i : Nat)
    (f : EventTreeNode → EventTreeNode) : List EventTreeNode :=
  match l, i with
  | [], _ => []
  | n :: rest, 0 => f n :: rest
  | n :: rest, j + 1 => n :: updateRoot rest j f

/-- Replace the last element of a list by its image under `f` (the Go code
mutates `group.Children[len(group.Children)-1]` after a non-empty check). -/
def updateLast (f : EventTreeNode → EventTreeNode) :
    List EventTreeNode → List EventTreeNode
  | [] => []
  | [n] => [f n]
  | n :: rest => n :: updateLast f rest

/-- The loop state of `BuildEventTree`: accumulated roots, the processed set,
and the four correlation maps (event id to root index). -/
structure BuildState where
  roots : List EventTreeNode
  processed : List Int
  activityGroups : List (Int × Nat)
  timerGroups : List (Int × Nat)
  childWfGroups : List (Int × Nat)
  wfTaskGroups : List (Int × Nat)

def initState : BuildState := ⟨[], [], [], [], [], []⟩

/-- The `ActivityTaskStarted` update of an open activity group: append the
event, set status Running, and when `Attempt > 1` record the attempt number
and append an attempt child node. -/
def activityStartedUpdate (ev : EnhancedHistoryEvent) (n : EventTreeNode) :
    EventTreeNode :=
  let c := n.core
  let c1 := { c with Events := c.Events ++ [ev], Status := "Running" }
  if 1 < ev.Attempt then
    .mk { c1 with Attempts := ev.Attempt }
      (n.Children ++
        [mkNode ("Attempt " ++ toString ev.Attempt) .GroupActivity "Running"
          ev.Time none [ev]])
  else
    .mk c1 n.Children

/-- The activity terminal-event update: append the event, map the status,
close the group, and close the most recently appended attempt child if one
exists. -/
def activityTerminalUpdate (ev : EnhancedHistoryEvent) (n : EventTreeNode) :
    EventTreeNode :=
  let c := n.core
  let st := extractActivityStatus ev.Typ
  .mk { c with Events := c.Events ++ [ev], Status := st,
               EndTime := some ev.Time, Duration := ev.Time - c.StartTime }
    (updateLast
      (fun ch => .mk { ch.core with
                        Events := ch.core.Events ++ [ev], Status := st,
                        EndTime := some ev.Time,
                        Duration := ev.Time - ch.core.StartTime }
                   ch.Children)
      n.Children)

/-- The timer terminal-event update. -/
def timerTerminalUpdate (ev : EnhancedHistoryEvent) (n : EventTreeNode) :
    EventTreeNode :=
  let c := n.core
  let st := if ev.Typ = "TimerFired" then "Fired" else "Canceled"
  .mk { c with Events := c.Events ++ [ev], Status := st,
               EndTime := some ev.Time, Duration := ev.Time - c.StartTime }
    n.Children

/-- The child-workflow started update. -/
def childWfStartedUpdate (ev : EnhancedHistoryEvent) (n : EventTreeNode) :
    EventTreeNode :=
  .mk { n.core with Events := n.core.Events ++ [ev], Status := "Running" }
    n.Children

/-- The child-workflow terminal-event update. -/
def childWfTerminalUpdate (ev : EnhancedHistoryEvent) (n : EventTreeNode) :
    EventTreeNode :=
  let c := n.core
  .mk { c with Events := c.Events ++ [ev],
               Status := extractChildWorkflowStatus ev.Typ,
               EndTime := some ev.Time, Duration := ev.Time - c.StartTime }
    n.Children

/-- The workflow-task started update. -/
def wfTaskStartedUpdate (ev : EnhancedHistoryEvent) (n : EventTreeNode) :
    EventTreeNode :=
  .mk { n.core with Events := n.core.Events ++ [ev], Status := "Running" }
    n.Children

/-- The workflow-task terminal-event update. -/
def wfTaskTerminalUpdate (ev : EnhancedHistoryEvent) (n : EventTreeNode) :
    EventTreeNode :=
  let c := n.core
  .mk { c with Events := c.Events ++ [ev],
               Status := extractWorkflowTaskStatus ev.Typ,
               EndTime := some ev.Time, Duration := ev.Time - c.StartTime }
    n.Children

/-- One iteration of the `BuildEventTree` loop: skip processed events, then
the Go `switch` over the event type, first match wins. -/
def step (s : BuildState) (ev : EnhancedHistoryEvent) : BuildState :=
  if s.processed.contains ev.ID then s
  else if ev.Typ = "WorkflowExecutionStarted" then
    { s with
      roots := s.roots ++
        [mkNode "Workflow Started" .GroupWorkflow "Running" ev.Time none [ev]],
      processed := ev.ID :: s.processed }
  else if hasPrefixStr ev.Typ "WorkflowExecution" ∧
          ev.Typ ≠ "WorkflowExecutionStarted" ∧
          ev.Typ ≠ "WorkflowExecutionSignaled" then
    let status := extractWorkflowStatus ev.Typ
    { s with
      roots := s.roots ++
        [mkNode ("Workflow " ++ status) .GroupWorkflow status ev.Time
          (some ev.Time) [ev]],
      processed := ev.ID :: s.processed }
  else if ev.Typ = "ActivityTaskScheduled" then
    { s with
      roots := s.roots ++
        [mkNode ("Activity: " ++ ev.ActivityType) .GroupActivity "Scheduled"
          ev.Time none [ev]],
      activityGroups := (ev.ID, s.roots.length) :: s.activityGroups,
      processed := ev.ID :: s.processed }
  else if ev.Typ = "ActivityTaskStarted" then
    match s.activityGroups.lookup ev.ScheduledEventID with
    | some i =>
        { s with roots := updateRoot s.roots i (activityStartedUpdate ev),
                 processed := ev.ID :: s.processed }
    | none => { s with processed := ev.ID :: s.processed }
  else if ev.Typ = "ActivityTaskCompleted" ∨ ev.Typ = "ActivityTaskFailed" ∨
          ev.Typ = "ActivityTaskTimedOut" ∨ ev.Typ = "ActivityTaskCanceled" then
    match s.activityGroups.lookup ev.ScheduledEventID with
    | some i =>
        { s with roots := updateRoot s.roots i (activityTerminalUpdate ev),
                 processed := ev.ID :: s.processed }
    | none => { s with processed := ev.ID :: s.processed }
  else if ev.Typ = "TimerStarted" then
    { s with
      roots := s.roots ++
        [mkNode ("Timer: " ++ ev.TimerID) .GroupTimer "Running" ev.Time none
          [ev]],
      timerGroups := (ev.ID, s.roots.length) :: s.timerGroups,
      processed := ev.ID :: s.processed }
  else if ev.Typ = "TimerFired" ∨ ev.Typ = "TimerCanceled" then
    match s.timerGroups.lookup ev.StartedEventID with
    | some i =>
        { s with roots := updateRoot s.roots i (timerTerminalUpdate ev),
                 processed := ev.ID :: s.processed }
    | none => { s with processed := ev.ID :: s.processed }
  else if ev.Typ = "StartChildWorkflowExecutionInitiated" then
    { s with
      roots := s.roots ++
        [mkNode ("ChildWorkflow: " ++ ev.ChildWorkflowType) .GroupChildWorkflow
          "Initiated" ev.Time none [ev]],
      childWfGroups := (ev.ID, s.roots.length) :: s.childWfGroups,
      processed := ev.ID :: s.processed }
  else if ev.Typ = "ChildWorkflowExecutionStarted" then
    match s.childWfGroups.lookup ev.InitiatedEventID with
    | some i =>
        { s with roots := updateRoot s.roots i (childWfStartedUpdate ev),
                 processed := ev.ID :: s.processed }
    | none => { s with processed := ev.ID :: s.processed }
  else if hasPrefixStr ev.Typ "ChildWorkflowExecution" ∧
          ev.Typ ≠ "ChildWorkflowExecutionStarted" then
    match s.childWfGroups.lookup ev.InitiatedEventID with
    | some i =>
        { s with roots := updateRoot s.roots i (childWfTerminalUpdate ev),
                 processed := ev.ID :: s.processed }
    | none => { s with processed := ev.ID :: s.processed }
  else if ev.Typ = "WorkflowTaskScheduled" then
    { s with
      roots := s.roots ++
        [mkNode "WorkflowTask" .GroupWorkflowTask "Scheduled" ev.Time none
          [ev]],
      wfTaskGroups := (ev.ID, s.roots.length) :: s.wfTaskGroups,
      processed := ev.ID :: s.processed }
  else if ev.Typ = "WorkflowTaskStarted" then
    match s.wfTaskGroups.lookup ev.ScheduledEventID with
    | some i =>
        { s with roots := updateRoot s.roots i (wfTaskStartedUpdate ev),
                 processed := ev.ID :: s.processed }
    | none => { s with processed := ev.ID :: s.processed }
  else if ev.Typ = "WorkflowTaskCompleted" ∨ ev.Typ = "WorkflowTaskFailed" ∨
          ev.Typ = "WorkflowTaskTimedOut" then
    match s.wfTaskGroups.lookup ev.ScheduledEventID with
    | some i =>
        { s with roots := updateRoot s.roots i (wfTaskTerminalUpdate ev),
                 processed := ev.ID :: s.processed }
    | none => { s with processed := ev.ID :: s.processed }
  else if ev.Typ = "WorkflowExecutionSignaled" then
    { s with
      roots := s.roots ++
        [mkNode "Signal Received" .GroupSignal "Received" ev.Time
          (some ev.Time) [ev]],
      processed := ev.ID :: s.processed }
  else if ev.Typ = "MarkerRecorded" then
    { s with
      roots := s.roots ++
        [mkNode "Marker" .GroupMarker "Recorded" ev.Time (some ev.Time) [ev]],
      processed := ev.ID :: s.processed }
  else
    { s with
      roots := s.roots ++
        [mkNode ev.Typ .GroupOther "Unknown" ev.Time none [ev]],
      processed := ev.ID :: s.processed }

/-- `BuildEventTree`: single forward pass over the event list. -/
def BuildEventTree (events : List EnhancedHistoryEvent) :
    List EventTreeNode :=
  if events = [] then [] else (events.foldl step initState).roots

/-- `TimelineLane`: a horizontal lane of the timeline view. -/
structure TimelineLane where
  Name : String
  Typ : EventGroupType
  Status : String
  StartTime : Int
  EndTime : Option Int
  Node : EventTreeNode

/-- `TimelineView`: the state of the Gantt-style timeline.  `time.Time`
fields are `Int` nanoseconds and the `float64` zoom level is `ℚ`. -/
structure TimelineView where
  lanes : List TimelineLane
  startTime : Int
  endTime : Int
  scrollX : Int
  scrollY : Int
  zoomLevel : ℚ
  selectedLane : Int

/-- `NewTimelineView`: zoom 1.0, selection 0, everything else at its Go zero
value. -/
def NewTimelineView : TimelineView :=
  ⟨[], 0, 0, 0, 0, 1, 0⟩

/-- One minute in nanoseconds (`time.Minute`). -/
def minuteNs : Int := 60000000000

/-- The body of the `SetNodes` loop for one node: skip Workflow and
WorkflowTask nodes, lower the range start, raise the range end (closed nodes
contribute their end, open nodes the current instant), and append a lane.
The Go loop mutates `startTime`, `endTime` and `lanes` in sequence; the
three updates touch disjoint fields, so they are written here as one record
update. -/
def setNodesStep (now : Int) (tv : TimelineView) (node : EventTreeNode) :
    TimelineView :=
  if node.Typ = .GroupWorkflow ∨ node.Typ = .GroupWorkflowTask then tv
  else
    { tv with
      startTime :=
        if node.StartTime < tv.startTime then node.StartTime
        else tv.startTime,
      endTime :=
        match node.EndTime with
        | some e => if tv.endTime < e then e else tv.endTime
        | none => if tv.endTime < now then now else tv.endTime,
      lanes := tv.lanes ++
        [⟨node.Name, node.Typ, node.Status, node.StartTime, node.EndTime,
          node⟩] }

/-- `TimelineView.SetNodes`, with `time.Now()` passed in as `now`. -/
def TimelineView.SetNodes (tv : TimelineView) (now : Int)
    (nodes : List EventTreeNode) : TimelineView :=
  let tv0 := { tv with lanes := [], selectedLane := 0 }
  if nodes.isEmpty then tv0
  else
    let tv1 := { tv0 with startTime := now, endTime := 0 }
    let tv2 := nodes.foldl (setNodesStep now) tv1
    if tv2.endTime = 0 ∨ tv2.endTime < tv2.startTime then
      { tv2 with endTime := tv2.startTime + minuteNs }
    else tv2

/-- `TimelineView.moveSelection`, with the inner-rect height passed in. -/
def TimelineView.moveSelection (tv : TimelineView) (delta height : Int) :
    TimelineView :=
  if tv.lanes.isEmpty then tv
  else
    let sel := tv.selectedLane + delta
    let sel := if sel < 0 then 0 else sel
    let sel :=
      if (tv.lanes.length : Int) ≤ sel then (tv.lanes.length : Int) - 1
      else sel
    let visibleLanes := height - 3
    let sy := if sel < tv.scrollY then sel else tv.scrollY
    let sy := if sy + visibleLanes ≤ sel then sel - visibleLanes + 1 else sy
    { tv with selectedLane := sel, scrollY := sy }

/-- `TimelineView.scroll`: horizontal scroll clamped at 0. -/
def TimelineView.scroll (tv : TimelineView) (delta : Int) : TimelineView :=
  let sx := tv.scrollX + delta
  { tv with scrollX := if sx < 0 then 0 else sx }

/-- `TimelineView.zoom`: multiply and clamp into [0.5, 5.0]. -/
def TimelineView.zoom (tv : TimelineView) (factor : ℚ) : TimelineView :=
  let z := tv.zoomLevel * factor
  let z := if z < 1 / 2 then 1 / 2 else z
  let z := if 5 < z then 5 else z
  { tv with zoomLevel := z }

/-- `TimelineView.resetView`: zoom 1.0, both scroll offsets 0. -/
def TimelineView.resetView (tv : TimelineView) : TimelineView :=
  { tv with zoomLevel := 1, scrollX := 0, scrollY := 0 }

/-- `TimelineView.SelectedLane`: the lane under the cursor, or `none` when
the index is out of range. -/
def TimelineView.SelectedLane (tv : TimelineView) : Option TimelineLane :=
  if 0 ≤ tv.selectedLane ∧ tv.selectedLane < (tv.lanes.length : Int) then
    tv.lanes.get? tv.selectedLane.toNat
  else none

/-- The zoom / horizontal-scroll / reset operations of the timeline input
handler (claim C8 quantifies over sequences of these). -/
inductive TimelineOp where
  | zoomBy (factor : ℚ)
  | scrollBy (delta : Int)
  | reset

/-- Apply one timeline operation. -/
def applyTimelineOp (tv : TimelineView) : TimelineOp → TimelineView
  | .zoomBy f => tv.zoom f
  | .scrollBy d => tv.scroll d
  | .reset => tv.resetView

/-- Apply a sequence of timeline operations. -/
def applyTimelineOps (tv : TimelineView) (ops : List TimelineOp) :
    TimelineView :=
  ops.foldl applyTimelineOp tv

/-- Apply a sequence of `moveSelection` calls; each pair carries the delta
and the inner-rect height in effect for that call. -/
def applyMoves (tv : TimelineView) (ops : List (Int × Int)) : TimelineView :=
  ops.foldl (fun t p => t.moveSelection p.1 p.2) tv

/-- How many events with the given id sit in one node's own contributing
list (attempt children not included). -/
def nodeIdCount (n : EventTreeNode) (id : Int) : Nat :=
  (n.Events.map EnhancedHistoryEvent.ID).count id

/-- How many events with the given id sit across the roots' own contributing
lists. -/
def rootsIdCount (roots : List EventTreeNode) (id : Int) : Nat :=
  (roots.map (fun n => nodeIdCount n id)).sum

/-- The multiset of event ids across roots and their attempt children, one
level deep; claim C2's "roots plus attempt children" union. -/
def treeEventIds (roots : List EventTreeNode) : List Int :=
  (roots.map (fun n =>
    n.Events.map EnhancedHistoryEvent.ID ++
      (n.Children.map (fun c => c.Events.map EnhancedHistoryEvent.ID)).flatten)).flatten

/-- The first contributing event of each root, in root order. -/
def firstEvents (roots : List EventTreeNode) : List EnhancedHistoryEvent :=
  roots.filterMap (fun n => n.Events.head?)

/-- The node filter of `SetNodes`: Workflow and WorkflowTask nodes are
skipped. -/
def timelineKept (n : EventTreeNode) : Bool :=
  if n.Typ = .GroupWorkflow ∨ n.Typ = .GroupWorkflowTask then false else true

theorem mkNode_Events (name typ status start endT evs) :
    (mkNode name typ status start endT evs).Events = evs := rfl

theorem activityStartedUpdate_Events (ev : EnhancedHistoryEvent)
    (n : EventTreeNode) :
    (activityStartedUpdate ev n).Events = n.Events ++ [ev] := by
  unfold activityStartedUpdate
  split <;> rfl

theorem activityTerminalUpdate_Events (ev : EnhancedHistoryEvent)
    (n : EventTreeNode) :
    (activityTerminalUpdate ev n).Events = n.Events ++ [ev] := rfl

theorem timerTerminalUpdate_Events (ev : EnhancedHistoryEvent)
    (n : EventTreeNode) :
    (timerTerminalUpdate ev n).Events = n.Events ++ [ev] := rfl

theorem childWfStartedUpdate_Events (ev : EnhancedHistoryEvent)
    (n : EventTreeNode) :
    (childWfStartedUpdate ev n).Events = n.Events ++ [ev] := rfl

theorem childWfTerminalUpdate_Events (ev : EnhancedHistoryEvent)
    (n : EventTreeNode) :
    (childWfTerminalUpdate ev n).Events = n.Events ++ [ev] := rfl

theorem wfTaskStartedUpdate_Events (ev : EnhancedHistoryEvent)
    (n : EventTreeNode) :
    (wfTaskStartedUpdate ev n).Events = n.Events ++ [ev] := rfl

theorem wfTaskTerminalUpdate_Events (ev : EnhancedHistoryEvent)
    (n : EventTreeNode) :
    (wfTaskTerminalUpdate ev n).Events = n.Events ++ [ev] := rfl

theorem updateRoot_length (l : List EventTreeNode) (i : Nat)
    (f : EventTreeNode → EventTreeNode) :
    (updateRoot l i f).length = l.length := by
  induction l generalizing i with
  | nil => rfl
  | cons n rest ih =>
    cases i with
    | zero => rfl
    | succ j => simpa [updateRoot] using ih j

theorem mem_updateRoot {l : List EventTreeNode} {i : Nat}
    {f : EventTreeNode → EventTreeNode} {n : EventTreeNode}
    (h : n ∈ updateRoot l i f) : n ∈ l ∨ ∃ m ∈ l, n = f m := by
  induction l generalizing i with
  | nil => simp [updateRoot] at h
  | cons a rest ih =>
    cases i with
    | zero =>
      rcases (by simpa [updateRoot] using h : n = f a ∨ n ∈ rest) with h1 | h1
      · exact Or.inr ⟨a, by simp, h1⟩
      · exact Or.inl (by simp [h1])
    | succ j =>
      rcases (by simpa [updateRoot] using h : n = a ∨ n ∈ updateRoot rest j f)
          with h1 | h1
      · exact Or.inl (by simp [h1])
      · rcases ih h1 with h2 | ⟨m, hm, he⟩
        · exact Or.inl (by simp [h2])
        · exact Or.inr ⟨m, by simp [hm], he⟩

/-- The shape of one builder iteration: an already-processed event leaves the
state untouched; otherwise the event id is marked processed and the root
list is left unchanged (orphan continuation/terminal events), extended by a
single fresh node whose contributing list is exactly the event, or updated
at one index by appending the event to that root's contributing list. -/
theorem step_shape (s : BuildState) (ev : EnhancedHistoryEvent) :
    (s.processed.contains ev.ID = true ∧ step s ev = s) ∨
    (s.processed.contains ev.ID = false ∧
     (step s ev).processed = ev.ID :: s.processed ∧
     ((step s ev).roots = s.roots ∨
      (∃ nd, (step s ev).roots = s.roots ++ [nd] ∧ nd.Events = [ev]) ∨
      (∃ i f, (step s ev).roots = updateRoot s.roots i f ∧
        ∀ n : EventTreeNode, (f n).Events = n.Events ++ [ev]))) := by
  by_cases hp : ev.ID ∈ s.processed
  · refine Or.inl ⟨by simpa using hp, ?_⟩
    unfold step
    rw [if_pos (by simpa using hp)]
  · right
    refine ⟨by simpa using hp, ?_⟩
    unfold step
    rw [if_neg (by simp [hp])]
    by_cases h1 : ev.Typ = "WorkflowExecutionStarted"
    · rw [if_pos h1]
      exact ⟨rfl, Or.inr (Or.inl ⟨_, rfl, rfl⟩)⟩
    rw [if_neg h1]
    by_cases h2 : hasPrefixStr ev.Typ "WorkflowExecution" = true ∧
        ¬ev.Typ = "WorkflowExecutionStarted" ∧
        ¬ev.Typ = "WorkflowExecutionSignaled"
    · rw [if_pos h2]
      exact ⟨rfl, Or.inr (Or.inl ⟨_, rfl, rfl⟩)⟩
    rw [if_neg h2]
    by_cases h3 : ev.Typ = "ActivityTaskScheduled"
    · rw [if_pos h3]
      exact ⟨rfl, Or.inr (Or.inl ⟨_, rfl, rfl⟩)⟩
    rw [if_neg h3]
    by_cases h4 : ev.Typ = "ActivityTaskStarted"
    · rw [if_pos h4]
      cases hl : List.lookup ev.ScheduledEventID s.activityGroups with
      | none => exact ⟨rfl, Or.inl rfl⟩
      | some i =>
        exact ⟨rfl, Or.inr (Or.inr ⟨i, _, rfl, activityStartedUpdate_Events ev⟩)⟩
    rw [if_neg h4]
    by_cases h5 : ev.Typ = "ActivityTaskCompleted" ∨
        ev.Typ = "ActivityTaskFailed" ∨ ev.Typ = "ActivityTaskTimedOut" ∨
        ev.Typ = "ActivityTaskCanceled"
    · rw [if_pos h5]
      cases hl : List.lookup ev.ScheduledEventID s.activityGroups with
      | none => exact ⟨rfl, Or.inl rfl⟩
      | some i =>
        exact ⟨rfl, Or.inr (Or.inr ⟨i, _, rfl, activityTerminalUpdate_Events ev⟩)⟩
    rw [if_neg h5]
    by_cases h6 : ev.Typ = "TimerStarted"
    · rw [if_pos h6]
      exact ⟨rfl, Or.inr (Or.inl ⟨_, rfl, rfl⟩)⟩
    rw [if_neg h6]
    by_cases h7 : ev.Typ = "TimerFired" ∨ ev.Typ = "TimerCanceled"
    · rw [if_pos h7]
      cases hl : List.lookup ev.StartedEventID s.timerGroups with
      | none => exact ⟨rfl, Or.inl rfl⟩
      | some i =>
        exact ⟨rfl, Or.inr (Or.inr ⟨i, _, rfl, timerTerminalUpdate_Events ev⟩)⟩
    rw [if_neg h7]
    by_cases h8 : ev.Typ = "StartChildWorkflowExecutionInitiated"
    · rw [if_pos h8]
      exact ⟨rfl, Or.inr (Or.inl ⟨_, rfl, rfl⟩)⟩
    rw [if_neg h8]
    by_cases h9 : ev.Typ = "ChildWorkflowExecutionStarted"
    · rw [if_pos h9]
      cases hl : List.lookup ev.InitiatedEventID s.childWfGroups with
      | none => exact ⟨rfl, Or.inl rfl⟩
      | some i =>
        exact ⟨rfl, Or.inr (Or.inr ⟨i, _, rfl, childWfStartedUpdate_Events ev⟩)⟩
    rw [if_neg h9]
    by_cases h10 : hasPrefixStr ev.Typ "ChildWorkflowExecution" = true ∧
        ¬ev.Typ = "ChildWorkflowExecutionStarted"
    · rw [if_pos h10]
      cases hl : List.lookup ev.InitiatedEventID s.childWfGroups with
      | none => exact ⟨rfl, Or.inl rfl⟩
      | some i =>
        exact ⟨rfl, Or.inr (Or.inr ⟨i, _, rfl, childWfTerminalUpdate_Events ev⟩)⟩
    rw [if_neg h10]
    by_cases h11 : ev.Typ = "WorkflowTaskScheduled"
    · rw [if_pos h11]
      exact ⟨rfl, Or.inr (Or.inl ⟨_, rfl, rfl⟩)⟩
    rw [if_neg h11]
    by_cases h12 : ev.Typ = "WorkflowTaskStarted"
    · rw [if_pos h12]
      cases hl : List.lookup ev.ScheduledEventID s.wfTaskGroups with
      | none => exact ⟨rfl, Or.inl rfl⟩
      | some i =>
        exact ⟨rfl, Or.inr (Or.inr ⟨i, _, rfl, wfTaskStartedUpdate_Events ev⟩)⟩
    rw [if_neg h12]
    by_cases h13 : ev.Typ = "WorkflowTaskCompleted" ∨
        ev.Typ = "WorkflowTaskFailed" ∨ ev.Typ = "WorkflowTaskTimedOut"
    · rw [if_pos h13]
      cases hl : List.lookup ev.ScheduledEventID s.wfTaskGroups with
      | none => exact ⟨rfl, Or.inl rfl⟩
      | some i =>
        exact ⟨rfl, Or.inr (Or.inr ⟨i, _, rfl, wfTaskTerminalUpdate_Events ev⟩)⟩
    rw [if_neg h13]
    by_cases h14 : ev.Typ = "WorkflowExecutionSignaled"
    · rw [if_pos h14]
      exact ⟨rfl, Or.inr (Or.inl ⟨_, rfl, rfl⟩)⟩
    rw [if_neg h14]
    by_cases h15 : ev.Typ = "MarkerRecorded"
    · rw [if_pos h15]
      exact ⟨rfl, Or.inr (Or.inl ⟨_, rfl, rfl⟩)⟩
    rw [if_neg h15]
    exact ⟨rfl, Or.inr (Or.inl ⟨_, rfl, rfl⟩)⟩

theorem step_roots_length (s : BuildState) (ev : EnhancedHistoryEvent) :
    (step s ev).roots.length ≤ s.roots.length + 1 := by
  rcases step_shape s ev with ⟨_, he⟩ | ⟨_, _, hr | ⟨nd, hr, _⟩ | ⟨i, f, hr, _⟩⟩
  · rw [he]
    omega
  · rw [hr]
    omega
  · rw [hr]
    simp
  · rw [hr, updateRoot_length]
    omega

theorem foldl_step_roots_length (events : List EnhancedHistoryEvent)
    (s : BuildState) :
    ((events.foldl step s).roots).length ≤ s.roots.length + events.length := by
  induction events generalizing s with
  | nil => simp
  | cons ev evs ih =>
    have h1 := ih (step s ev)
    have h2 := step_roots_length s ev
    simp only [List.foldl_cons, List.length_cons]
    omega

theorem nodeIdCount_of_events_append {m n : EventTreeNode}
    {ev : EnhancedHistoryEvent} (h : m.Events = n.Events ++ [ev]) (id : Int) :
    nodeIdCount m id = nodeIdCount n id + (if ev.ID = id then 1 else 0) := by
  by_cases hh : ev.ID = id <;>
    simp [nodeIdCount, h, List.count_append, hh, List.count_singleton]

theorem nodeIdCount_singleton {nd : EventTreeNode} {ev : EnhancedHistoryEvent}
    (h : nd.Events = [ev]) (id : Int) :
    nodeIdCount nd id = if ev.ID = id then 1 else 0 := by
  by_cases hh : ev.ID = id <;> simp [nodeIdCount, h, hh, List.count_cons]

theorem rootsIdCount_nil (id : Int) : rootsIdCount [] id = 0 := rfl

theorem rootsIdCount_cons (n : EventTreeNode) (l : List EventTreeNode)
    (id : Int) :
    rootsIdCount (n :: l) id = nodeIdCount n id + rootsIdCount l id := by
  simp [rootsIdCount]

theorem rootsIdCount_append (l : List EventTreeNode) (nd : EventTreeNode)
    (id : Int) :
    rootsIdCount (l ++ [nd]) id = rootsIdCount l id + nodeIdCount nd id := by
  simp [rootsIdCount]

theorem rootsIdCount_updateRoot (l : List EventTreeNode) (i : Nat)
    (f : EventTreeNode → EventTreeNode) (id : Int) (c : Nat)
    (hf : ∀ n, nodeIdCount (f n) id = nodeIdCount n id + c) :
    rootsIdCount (updateRoot l i f) id ≤ rootsIdCount l id + c := by
  induction l generalizing i with
  | nil =>
    simp [updateRoot, rootsIdCount]
  | cons n rest ih =>
    cases i with
    | zero =>
      rw [show updateRoot (n :: rest) 0 f = f n :: rest from rfl,
        rootsIdCount_cons, rootsIdCount_cons, hf n]
      omega
    | succ j =>
      rw [show updateRoot (n :: rest) (j + 1) f = n :: updateRoot rest j f
          from rfl, rootsIdCount_cons, rootsIdCount_cons]
      have := ih j
      omega

theorem processed_ite_mono (s : BuildState) (ev : EnhancedHistoryEvent)
    (id : Int) :
    (if id ∈ s.processed then (1 : Nat) else 0) ≤
      (if id ∈ ev.ID :: s.processed then (1 : Nat) else 0) := by
  by_cases hm : id ∈ s.processed
  · simp [hm, List.mem_cons_of_mem _ hm]
  · rw [if_neg hm]
    exact Nat.zero_le _

theorem step_rootsIdCount (s : BuildState) (ev : EnhancedHistoryEvent)
    (id : Int)
    (h : rootsIdCount s.roots id ≤ if id ∈ s.processed then 1 else 0) :
    rootsIdCount (step s ev).roots id ≤
      if id ∈ (step s ev).processed then 1 else 0 := by
  rcases step_shape s ev with ⟨_, he⟩ |
    ⟨hc, hproc, hr | ⟨nd, hr, hnd⟩ | ⟨i, f, hr, hf⟩⟩
  · rw [he]
    exact h
  · rw [hr, hproc]
    exact h.trans (processed_ite_mono s ev id)
  · have hnm : ev.ID ∉ s.processed := by simpa using hc
    rw [hr, hproc, rootsIdCount_append, nodeIdCount_singleton hnd]
    by_cases hid : ev.ID = id
    · subst hid
      have h0 : rootsIdCount s.roots ev.ID = 0 := by
        rw [if_neg hnm] at h
        omega
      simp [h0]
    · rw [if_neg hid]
      have := h.trans (processed_ite_mono s ev id)
      omega
  · have hnm : ev.ID ∉ s.processed := by simpa using hc
    have hb := rootsIdCount_updateRoot s.roots i f id
      (if ev.ID = id then 1 else 0)
      (fun n => nodeIdCount_of_events_append (hf n) id)
    rw [hr, hproc]
    by_cases hid : ev.ID = id
    · subst hid
      have h0 : rootsIdCount s.roots ev.ID = 0 := by
        rw [if_neg hnm] at h
        omega
      rw [if_pos rfl] at hb
      simp [h0] at hb
      simpa using hb
    · rw [if_neg hid] at hb
      have := h.trans (processed_ite_mono s ev id)
      omega

theorem foldl_step_rootsIdCount (events : List EnhancedHistoryEvent)
    (s : BuildState) (id : Int)
    (h : rootsIdCount s.roots id ≤ if id ∈ s.processed then 1 else 0) :
    rootsIdCount ((events.foldl step s).roots) id ≤
      if id ∈ (events.foldl step s).processed then 1 else 0 := by
  induction events generalizing s with
  | nil => exact h
  | cons ev evs ih =>
    simp only [List.foldl_cons]
    exact ih (step s ev) (step_rootsIdCount s ev id h)

theorem firstEvents_append_singleton {l : List EventTreeNode}
    {nd : EventTreeNode} {ev : EnhancedHistoryEvent} (h : nd.Events = [ev]) :
    firstEvents (l ++ [nd]) = firstEvents l ++ [ev] := by
  simp [firstEvents, h]

theorem firstEvents_updateRoot {ev : EnhancedHistoryEvent}
    {l : List EventTreeNode} {i : Nat} {f : EventTreeNode → EventTreeNode}
    (hf : ∀ n, (f n).Events = n.Events ++ [ev])
    (hne : ∀ n ∈ l, n.Events ≠ []) :
    firstEvents (updateRoot l i f) = firstEvents l := by
  induction l generalizing i with
  | nil => rfl
  | cons n rest ih =>
    cases i with
    | zero =>
      rw [show updateRoot (n :: rest) 0 f = f n :: rest from rfl]
      have hn : n.Events ≠ [] := hne n (by simp)
      have hhead : (f n).Events.head? = n.Events.head? := by
        rw [hf n]
        cases hev : n.Events with
        | nil => exact absurd hev hn
        | cons a as => simp
      simp [firstEvents, List.filterMap_cons, hhead]
    | succ j =>
      rw [show updateRoot (n :: rest) (j + 1) f = n :: updateRoot rest j f
          from rfl]
      have hrec := ih (fun m hm => hne m (by simp [hm])) (i := j)
      simp only [firstEvents] at hrec ⊢
      simp [List.filterMap_cons, hrec]

theorem updateRoot_events_ne {ev : EnhancedHistoryEvent}
    {l : List EventTreeNode} {i : Nat} {f : EventTreeNode → EventTreeNode}
    (hf : ∀ n, (f n).Events = n.Events ++ [ev])
    (hne : ∀ n ∈ l, n.Events ≠ []) :
    ∀ n ∈ updateRoot l i f, n.Events ≠ [] := by
  intro n hn
  rcases mem_updateRoot hn with h | ⟨m, _, rfl⟩
  · exact hne n h
  · rw [hf m]
    simp

theorem step_firstEvents (s : BuildState) (ev : EnhancedHistoryEvent)
    (hne : ∀ n ∈ s.roots, n.Events ≠ []) :
    (∀ n ∈ (step s ev).roots, n.Events ≠ []) ∧
    (firstEvents (step s ev).roots = firstEvents s.roots ∨
     firstEvents (step s ev).roots = firstEvents s.roots ++ [ev]) := by
  rcases step_shape s ev with ⟨_, he⟩ |
    ⟨_, _, hr | ⟨nd, hr, hnd⟩ | ⟨i, f, hr, hf⟩⟩
  · rw [he]
    exact ⟨hne, Or.inl rfl⟩
  · rw [hr]
    exact ⟨hne, Or.inl rfl⟩
  · rw [hr]
    constructor
    · intro n hn
      rcases List.mem_append.mp hn with h | h
      · exact hne n h
      · rw [List.mem_singleton.mp h, hnd]
        simp
    · exact Or.inr (firstEvents_append_singleton hnd)
  · rw [hr]
    exact ⟨updateRoot_events_ne hf hne,
      Or.inl (firstEvents_updateRoot hf hne)⟩

theorem foldl_step_firstEvents (events : List EnhancedHistoryEvent)
    (s : BuildState) (hne : ∀ n ∈ s.roots, n.Events ≠ []) :
    (∀ n ∈ ((events.foldl step s).roots), n.Events ≠ []) ∧
    ∃ suffix, firstEvents ((events.foldl step s).roots) =
        firstEvents s.roots ++ suffix ∧ suffix.Sublist events := by
  induction events generalizing s with
  | nil => exact ⟨hne, [], by simp, List.Sublist.refl []⟩
  | cons ev evs ih =>
    obtain ⟨hne1, hfe⟩ := step_firstEvents s ev hne
    obtain ⟨hne2, suffix, heq, hsub⟩ := ih (step s ev) hne1
    simp only [List.foldl_cons]
    refine ⟨hne2, ?_⟩
    rcases hfe with hsame | happ
    · exact ⟨suffix, by rw [heq, hsame], hsub.trans (List.sublist_cons_self ev evs)⟩
    · exact ⟨ev :: suffix, by rw [heq, happ, List.append_assoc]; rfl,
        List.Sublist.cons₂ ev hsub⟩

/-- C2, counterexample: the partition claim fails on the code.  Feeding
`ActivityTaskScheduled(id=1)` then `ActivityTaskStarted(id=2, scheduledEventId=1,
attempt=2)` yields one activity root whose events are [1,2] plus an attempt
child whose events are [2]: event 2 occurs twice in the multiset union over
roots and attempt children, not exactly once as claimed. -/
theorem partition_invariant_counterexample :
    treeEventIds (BuildEventTree
      [⟨1, "ActivityTaskScheduled", 100, "", 0, 0, 0, 0, "", "Work", ""⟩,
       ⟨2, "ActivityTaskStarted", 110, "", 1, 0, 0, 2, "", "", ""⟩]) =
      [1, 2, 2] ∧
    ¬ (treeEventIds (BuildEventTree
      [⟨1, "ActivityTaskScheduled", 100, "", 0, 0, 0, 0, "", "Work", ""⟩,
       ⟨2, "ActivityTaskStarted", 110, "", 1, 0, 0, 2, "", "", ""⟩])).count 2
        = 1 := by
  constructor
  · rfl
  · intro h
    rw [show treeEventIds (BuildEventTree
      [⟨1, "ActivityTaskScheduled", 100, "", 0, 0, 0, 0, "", "Work", ""⟩,
       ⟨2, "ActivityTaskStarted", 110, "", 1, 0, 0, 2, "", "", ""⟩]) =
        [1, 2, 2] from rfl] at h
    simp at h

/-- C2, amended: across the roots' own contributing-events lists (attempt
children excluded — they duplicate their parent's events), every event id
occurs at most once; orphan continuation/terminal events occur zero times
rather than exactly once. -/
theorem contributing_events_at_most_once
    (events : List EnhancedHistoryEvent) (id : Int) :
    rootsIdCount (BuildEventTree events) id ≤ 1 := by
  unfold BuildEventTree
  split
  · simp [rootsIdCount]
  · have h := foldl_step_rootsIdCount events initState id
      (by simp [initState, rootsIdCount])
    refine h.trans ?_
    split <;> omega

/-- C10: every root produced by `BuildEventTree` has a non-empty
contributing-events list whose first element is the event that created the
root, and the sequence of these first events, over the roots in order, is an
order-preserving subsequence of the input: roots appear in the order of
their creating events. -/
theorem roots_in_creation_order (events : List EnhancedHistoryEvent) :
    (∀ n ∈ BuildEventTree events, n.Events ≠ []) ∧
    (firstEvents (BuildEventTree events)).Sublist events := by
  unfold BuildEventTree
  split
  · exact ⟨by simp, by simp [firstEvents]⟩
  · obtain ⟨h1, suffix, heq, hsub⟩ :=
      foldl_step_firstEvents events initState (by simp [initState])
    refine ⟨h1, ?_⟩
    have : firstEvents initState.roots = [] := rfl
    rw [heq, this, List.nil_append]
    exact hsub

/-- C1, counterexample: feeding the lone orphan event
`ActivityTaskCompleted(id=9, scheduledEventId=99)` yields an empty root
list — no node of kind Other (indeed no node at all) is produced, so the
event is silently dropped, contrary to the claim. -/
theorem orphan_completed_counterexample :
    BuildEventTree
      [⟨9, "ActivityTaskCompleted", 100, "", 99, 0, 0, 0, "", "", ""⟩] = [] ∧
    ∀ nd : EventTreeNode,
      BuildEventTree
        [⟨9, "ActivityTaskCompleted", 100, "", 99, 0, 0, 0, "", "", ""⟩] ≠
        [nd] := by
  refine ⟨rfl, ?_⟩
  intro nd h
  rw [show BuildEventTree
      [⟨9, "ActivityTaskCompleted", 100, "", 99, 0, 0, 0, "", "", ""⟩] = []
    from rfl] at h
  exact List.cons_ne_nil nd [] h.symm

/-- C1, amended: a continuation or terminal event whose correlation id
matches no open group is marked processed and contributes to no node at
all — the builder's root list stays empty on such a lone event; only events
with unrecognized type tags are turned into standalone Other nodes. -/
theorem orphan_events_produce_no_node (ev : EnhancedHistoryEvent)
    (h : ev.Typ ∈ (["ActivityTaskStarted", "ActivityTaskCompleted",
      "ActivityTaskFailed", "ActivityTaskTimedOut", "ActivityTaskCanceled",
      "TimerFired", "TimerCanceled", "ChildWorkflowExecutionStarted",
      "ChildWorkflowExecutionCompleted", "ChildWorkflowExecutionFailed",
      "ChildWorkflowExecutionTimedOut", "ChildWorkflowExecutionCanceled",
      "ChildWorkflowExecutionTerminated", "WorkflowTaskStarted",
      "WorkflowTaskCompleted", "WorkflowTaskFailed",
      "WorkflowTaskTimedOut"] : List String)) :
    BuildEventTree [ev] = [] := by
  obtain ⟨i, t, tm, d, sc, st, ini, att, ti, at2, ct⟩ := ev
  simp only [List.mem_cons, List.not_mem_nil, or_false] at h
  rcases h with rfl | rfl | rfl | rfl | rfl | rfl | rfl | rfl | rfl | rfl |
    rfl | rfl | rfl | rfl | rfl | rfl | rfl <;> rfl

/-- C1, amended, witness: a lone `TimerFired` with no matching
`TimerStarted` produces no node. -/
theorem orphan_events_produce_no_node_witness :
    BuildEventTree
      [⟨3, "TimerFired", 70, "", 0, 44, 0, 0, "", "", ""⟩] = [] :=
  orphan_events_produce_no_node
    ⟨3, "TimerFired", 70, "", 0, 44, 0, 0, "", "", ""⟩ (by decide)

/-- C3: Scenario A.  Scheduled(5) / Started(6, scheduledEventId=5, attempt=1)
/ Completed(7, scheduledEventId=5) produce exactly one root: kind Activity,
status "Completed", contributing events [5,6,7] in order, end time equal to
event 7's timestamp (with the derived duration), and no children. -/
theorem scenarioA_one_completed_activity_root :
    BuildEventTree
      [⟨5, "ActivityTaskScheduled", 100, "", 0, 0, 0, 0, "", "ValidateOrder",
         ""⟩,
       ⟨6, "ActivityTaskStarted", 110, "", 5, 0, 0, 1, "", "", ""⟩,
       ⟨7, "ActivityTaskCompleted", 120, "", 5, 0, 0, 0, "", "", ""⟩] =
    [EventTreeNode.mk
      ⟨"Activity: ValidateOrder", .GroupActivity, "Completed", 100, some 120,
       20,
       [⟨5, "ActivityTaskScheduled", 100, "", 0, 0, 0, 0, "", "ValidateOrder",
          ""⟩,
        ⟨6, "ActivityTaskStarted", 110, "", 5, 0, 0, 1, "", "", ""⟩,
        ⟨7, "ActivityTaskCompleted", 120, "", 5, 0, 0, 0, "", "", ""⟩],
       false, 0⟩ []] := rfl

/-- C6, counterexample: after `ActivityTaskStarted` with attempt number 3 the
node's recorded attempt count is 3, the raw attempt number, not 3 - 1 = 2
retries beyond the first as the claim states. -/
theorem attempts_field_counterexample :
    ((BuildEventTree
      [⟨1, "ActivityTaskScheduled", 100, "", 0, 0, 0, 0, "", "Work", ""⟩,
       ⟨2, "ActivityTaskStarted", 110, "", 1, 0, 0, 3, "", "", ""⟩]).map
        EventTreeNode.Attempts = [3]) ∧
    ((BuildEventTree
      [⟨1, "ActivityTaskScheduled", 100, "", 0, 0, 0, 0, "", "Work", ""⟩,
       ⟨2, "ActivityTaskStarted", 110, "", 1, 0, 0, 3, "", "", ""⟩]).map
        EventTreeNode.Attempts ≠ [2]) := by
  constructor
  · rfl
  · intro h
    rw [show (BuildEventTree
      [⟨1, "ActivityTaskScheduled", 100, "", 0, 0, 0, 0, "", "Work", ""⟩,
       ⟨2, "ActivityTaskStarted", 110, "", 1, 0, 0, 3, "", "", ""⟩]).map
        EventTreeNode.Attempts = [3] from rfl] at h
    simp at h


/-- C7: the builder is total and unrecognized tags fall into the Other
catch-all: the empty sequence yields the empty root list, every input yields
a root list (of length at most the event count), and a lone event whose tag
matches none of the recognized cases becomes a standalone Other node with
status "Unknown" rather than an error. -/
theorem builder_total_other_catchall :
    BuildEventTree [] = [] ∧
    (∀ events, (BuildEventTree events).length ≤ events.length) ∧
    ∀ ev : EnhancedHistoryEvent,
      hasPrefixStr ev.Typ "WorkflowExecution" = false →
      hasPrefixStr ev.Typ "ChildWorkflowExecution" = false →
      ev.Typ ∉ (["ActivityTaskScheduled", "ActivityTaskStarted",
        "ActivityTaskCompleted", "ActivityTaskFailed", "ActivityTaskTimedOut",
        "ActivityTaskCanceled", "TimerStarted", "TimerFired", "TimerCanceled",
        "StartChildWorkflowExecutionInitiated", "WorkflowTaskScheduled",
        "WorkflowTaskStarted", "WorkflowTaskCompleted", "WorkflowTaskFailed",
        "WorkflowTaskTimedOut", "MarkerRecorded"] : List String) →
      BuildEventTree [ev] =
        [mkNode ev.Typ .GroupOther "Unknown" ev.Time none [ev]] := by
  refine ⟨rfl, ?_, ?_⟩
  · intro events
    unfold BuildEventTree
    split
    · simp
    · simpa [initState] using foldl_step_roots_length events initState
  · intro ev h1 h2 h3
    have hA1 : ev.Typ ≠ "WorkflowExecutionStarted" := by
      intro h
      rw [h] at h1
      exact absurd h1 (by decide)
    have hA2 : ev.Typ ≠ "WorkflowExecutionSignaled" := by
      intro h
      rw [h] at h1
      exact absurd h1 (by decide)
    have hA3 : ev.Typ ≠ "ChildWorkflowExecutionStarted" := by
      intro h
      rw [h] at h2
      exact absurd h2 (by decide)
    simp only [List.mem_cons, List.not_mem_nil, or_false, not_or] at h3
    obtain ⟨hB1, hB2, hB3, hB4, hB5, hB6, hB7, hB8, hB9, hB10, hB11, hB12,
      hB13, hB14, hB15, hB16⟩ := h3
    unfold BuildEventTree
    rw [if_neg (by simp)]
    simp only [List.foldl_cons, List.foldl_nil]
    unfold step
    rw [if_neg (by simp [initState])]
    rw [if_neg hA1]
    rw [if_neg (by simp [h1])]
    rw [if_neg hB1]
    rw [if_neg hB2]
    rw [if_neg (by simp [hB3, hB4, hB5, hB6])]
    rw [if_neg hB7]
    rw [if_neg (by simp [hB8, hB9])]
    rw [if_neg hB10]
    rw [if_neg hA3]
    rw [if_neg (by simp [h2])]
    rw [if_neg hB11]
    rw [if_neg hB12]
    rw [if_neg (by simp [hB13, hB14, hB15])]
    rw [if_neg hA2]
    rw [if_neg hB16]
    simp [initState]

/-- C7, witness: a lone event with the unrecognized tag "UpsertSearchAttributes"
becomes a single Other / "Unknown" root. -/
theorem builder_total_other_catchall_witness :
    BuildEventTree
      [⟨21, "UpsertSearchAttributes", 400, "", 0, 0, 0, 0, "", "", ""⟩] =
      [mkNode "UpsertSearchAttributes" .GroupOther "Unknown" 400 none
        [⟨21, "UpsertSearchAttributes", 400, "", 0, 0, 0, 0, "", "", ""⟩]] :=
  builder_total_other_catchall.2.2
    ⟨21, "UpsertSearchAttributes", 400, "", 0, 0, 0, 0, "", "", ""⟩
    (by decide) (by decide) (by decide)

/-- C5: an event whose tag begins with "WorkflowExecution" and is neither
the Started nor the Signaled variant becomes a Workflow-kind group-end root
(its end time set to the event's own time) whose status is the suffix
mapping Completed / Failed / TimedOut / Canceled / Terminated /
ContinuedAsNew, and "Unknown" for any other tag with that prefix. -/
theorem workflow_terminal_classified (ev : EnhancedHistoryEvent)
    (h1 : hasPrefixStr ev.Typ "WorkflowExecution" = true)
    (h2 : ev.Typ ≠ "WorkflowExecutionStarted")
    (h3 : ev.Typ ≠ "WorkflowExecutionSignaled") :
    BuildEventTree [ev] =
      [mkNode ("Workflow " ++ extractWorkflowStatus ev.Typ) .GroupWorkflow
        (extractWorkflowStatus ev.Typ) ev.Time (some ev.Time) [ev]] ∧
    extractWorkflowStatus ev.Typ =
      (if ev.Typ = "WorkflowExecutionCompleted" then "Completed"
       else if ev.Typ = "WorkflowExecutionFailed" then "Failed"
       else if ev.Typ = "WorkflowExecutionTimedOut" then "TimedOut"
       else if ev.Typ = "WorkflowExecutionCanceled" then "Canceled"
       else if ev.Typ = "WorkflowExecutionTerminated" then "Terminated"
       else if ev.Typ = "WorkflowExecutionContinuedAsNew" then
         "ContinuedAsNew"
       else "Unknown") := by
  constructor
  · unfold BuildEventTree
    rw [if_neg (by simp)]
    simp only [List.foldl_cons, List.foldl_nil]
    unfold step
    rw [if_neg (by simp [initState])]
    rw [if_neg h2]
    rw [if_pos ⟨h1, h2, h3⟩]
    simp [initState]
  · rfl

/-- C5, witness: "WorkflowExecutionTerminated" maps to a closed Workflow
root with status "Terminated". -/
theorem workflow_terminal_classified_witness :
    BuildEventTree
      [⟨14, "WorkflowExecutionTerminated", 50, "", 0, 0, 0, 0, "", "", ""⟩] =
      [mkNode "Workflow Terminated" .GroupWorkflow "Terminated" 50 (some 50)
        [⟨14, "WorkflowExecutionTerminated", 50, "", 0, 0, 0, 0, "", "",
          ""⟩]] :=
  (workflow_terminal_classified
    ⟨14, "WorkflowExecutionTerminated", 50, "", 0, 0, 0, 0, "", "", ""⟩
    (by decide) (by decide) (by decide)).1

/-- C6, amended: when an open activity group sees `ActivityTaskStarted` with
attempt number a > 1, the node's recorded attempt count is the raw attempt
number a itself, not a - 1. -/
theorem attempts_equal_raw_attempt_number
    (schedEv startedEv : EnhancedHistoryEvent)
    (hs : schedEv.Typ = "ActivityTaskScheduled")
    (ht : startedEv.Typ = "ActivityTaskStarted")
    (hid : startedEv.ID ≠ schedEv.ID)
    (hcorr : startedEv.ScheduledEventID = schedEv.ID)
    (hatt : 1 < startedEv.Attempt) :
    (BuildEventTree [schedEv, startedEv]).map EventTreeNode.Attempts =
      [startedEv.Attempt] := by
  obtain ⟨i1, t1, tm1, d1, sc1, st1, in1, a1, ti1, ac1, cw1⟩ := schedEv
  obtain ⟨i2, t2, tm2, d2, sc2, st2, in2, a2, ti2, ac2, cw2⟩ := startedEv
  simp only at hs ht hcorr hid hatt
  subst hs
  subst ht
  rw [hcorr]
  have hpf1 : hasPrefixStr "ActivityTaskStarted" "WorkflowExecution" = false :=
    by decide
  have hpf2 : hasPrefixStr "ActivityTaskStarted" "ChildWorkflowExecution" =
      false := by decide
  have hpf3 : hasPrefixStr "ActivityTaskScheduled" "WorkflowExecution" =
      false := by decide
  have hpf4 : hasPrefixStr "ActivityTaskScheduled" "ChildWorkflowExecution" =
      false := by decide
  simp [BuildEventTree, step, initState, List.lookup, hpf1, hpf2, hpf3, hpf4,
    hid, hatt, activityStartedUpdate, updateRoot, mkNode,
    EventTreeNode.Attempts, EventTreeNode.core, EventTreeNode.Children,
    EventTreeNode.Events]

/-- C6, amended, witness: attempt number 4 is recorded as attempt count 4. -/
theorem attempts_equal_raw_attempt_number_witness :
    (BuildEventTree
      [⟨31, "ActivityTaskScheduled", 100, "", 0, 0, 0, 0, "", "Job", ""⟩,
       ⟨32, "ActivityTaskStarted", 130, "", 31, 0, 0, 4, "", "", ""⟩]).map
      EventTreeNode.Attempts = [4] :=
  attempts_equal_raw_attempt_number
    ⟨31, "ActivityTaskScheduled", 100, "", 0, 0, 0, 0, "", "Job", ""⟩
    ⟨32, "ActivityTaskStarted", 130, "", 31, 0, 0, 4, "", "", ""⟩
    rfl rfl (by decide) rfl (by decide)


/-- C8: starting from the initial view, any sequence of zoom, horizontal
scroll and resetView operations keeps the zoom level inside [0.5, 5.0] and
the horizontal scroll offset nonnegative. -/
theorem zoom_scroll_clamped (ops : List TimelineOp) :
    1 / 2 ≤ (applyTimelineOps NewTimelineView ops).zoomLevel ∧
    (applyTimelineOps NewTimelineView ops).zoomLevel ≤ 5 ∧
    0 ≤ (applyTimelineOps NewTimelineView ops).scrollX := by
  suffices h : ∀ (ops : List TimelineOp) (tv : TimelineView),
      (1 / 2 ≤ tv.zoomLevel ∧ tv.zoomLevel ≤ 5 ∧ 0 ≤ tv.scrollX) →
      (1 / 2 ≤ (applyTimelineOps tv ops).zoomLevel ∧
       (applyTimelineOps tv ops).zoomLevel ≤ 5 ∧
       0 ≤ (applyTimelineOps tv ops).scrollX) by
    exact h ops NewTimelineView (by norm_num [NewTimelineView])
  intro ops
  induction ops with
  | nil => exact fun tv h => h
  | cons op rest ih =>
    intro tv h
    obtain ⟨h1, h2, h3⟩ := h
    simp only [applyTimelineOps, List.foldl_cons]
    apply ih
    cases op with
    | zoomBy f =>
      simp only [applyTimelineOp, TimelineView.zoom]
      refine ⟨?_, ?_, h3⟩ <;> split_ifs <;> linarith
    | scrollBy d =>
      simp only [applyTimelineOp, TimelineView.scroll]
      refine ⟨h1, h2, ?_⟩
      split_ifs with hh
      · simp
      · simpa using by omega
    | reset =>
      simp only [applyTimelineOp, TimelineView.resetView]
      norm_num

theorem setNodesStep_selectedLane (now : Int) (tv : TimelineView)
    (n : EventTreeNode) :
    (setNodesStep now tv n).selectedLane = tv.selectedLane := by
  unfold setNodesStep
  split
  · rfl
  · cases hE : n.EndTime <;> split_ifs <;> rfl

theorem foldl_setNodesStep_selectedLane (now : Int)
    (nodes : List EventTreeNode) (tv : TimelineView) :
    (nodes.foldl (setNodesStep now) tv).selectedLane = tv.selectedLane := by
  induction nodes generalizing tv with
  | nil => rfl
  | cons n rest ih =>
    simp only [List.foldl_cons]
    rw [ih, setNodesStep_selectedLane]

theorem SetNodes_selectedLane (tv : TimelineView) (now : Int)
    (nodes : List EventTreeNode) :
    (tv.SetNodes now nodes).selectedLane = 0 := by
  unfold TimelineView.SetNodes
  split
  · rfl
  · dsimp only
    split_ifs <;> simp [foldl_setNodesStep_selectedLane]

theorem moveSelection_lanes (tv : TimelineView) (d h : Int) :
    (tv.moveSelection d h).lanes = tv.lanes := by
  unfold TimelineView.moveSelection
  split <;> rfl

theorem moveSelection_selected_bounds (tv : TimelineView) (d h : Int)
    (hinv : (tv.lanes = [] → tv.selectedLane = 0) ∧
      (tv.lanes ≠ [] → 0 ≤ tv.selectedLane ∧
        tv.selectedLane < (tv.lanes.length : Int))) :
    ((tv.moveSelection d h).lanes = [] →
      (tv.moveSelection d h).selectedLane = 0) ∧
    ((tv.moveSelection d h).lanes ≠ [] →
      0 ≤ (tv.moveSelection d h).selectedLane ∧
      (tv.moveSelection d h).selectedLane <
        ((tv.moveSelection d h).lanes.length : Int)) := by
  rw [moveSelection_lanes]
  unfold TimelineView.moveSelection
  split
  · exact hinv
  · rename_i hne
    have hlanes : tv.lanes ≠ [] := by
      intro h0
      rw [h0] at hne
      exact hne rfl
    have hlen : 0 < tv.lanes.length := List.length_pos.mpr hlanes
    constructor
    · intro h0
      exact absurd h0 hlanes
    · intro _
      constructor <;> simp only [] <;> split_ifs <;> omega

theorem applyMoves_invariant (ops : List (Int × Int)) (tv : TimelineView)
    (hinv : (tv.lanes = [] → tv.selectedLane = 0) ∧
      (tv.lanes ≠ [] → 0 ≤ tv.selectedLane ∧
        tv.selectedLane < (tv.lanes.length : Int))) :
    ((applyMoves tv ops).lanes = [] → (applyMoves tv ops).selectedLane = 0) ∧
    ((applyMoves tv ops).lanes ≠ [] →
      0 ≤ (applyMoves tv ops).selectedLane ∧
      (applyMoves tv ops).selectedLane <
        ((applyMoves tv ops).lanes.length : Int)) := by
  induction ops generalizing tv with
  | nil => exact hinv
  | cons op rest ih =>
    simp only [applyMoves, List.foldl_cons]
    exact ih _ (moveSelection_selected_bounds tv op.1 op.2 hinv)

/-- C9: after `SetNodes` followed by any sequence of `moveSelection` calls,
the selected-lane index is within [0, laneCount - 1] whenever the lane list
is non-empty, and `SelectedLane` returns `none` exactly when the lane list
is empty. -/
theorem selection_within_bounds (now : Int) (nodes : List EventTreeNode)
    (ops : List (Int × Int)) :
    ((applyMoves (NewTimelineView.SetNodes now nodes) ops).lanes ≠ [] →
      0 ≤ (applyMoves (NewTimelineView.SetNodes now nodes) ops).selectedLane ∧
      (applyMoves (NewTimelineView.SetNodes now nodes) ops).selectedLane <
        (((applyMoves (NewTimelineView.SetNodes now nodes) ops).lanes.length :
          Int))) ∧
    ((applyMoves (NewTimelineView.SetNodes now nodes) ops).SelectedLane =
        none ↔
      (applyMoves (NewTimelineView.SetNodes now nodes) ops).lanes = []) := by
  have h0 : ((NewTimelineView.SetNodes now nodes).lanes = [] →
      (NewTimelineView.SetNodes now nodes).selectedLane = 0) ∧
      ((NewTimelineView.SetNodes now nodes).lanes ≠ [] →
        0 ≤ (NewTimelineView.SetNodes now nodes).selectedLane ∧
        (NewTimelineView.SetNodes now nodes).selectedLane <
          (((NewTimelineView.SetNodes now nodes).lanes.length : Int))) := by
    rw [SetNodes_selectedLane]
    refine ⟨fun _ => rfl, fun hne => ⟨le_refl 0, ?_⟩⟩
    have := List.length_pos.mpr hne
    omega
  have hinv := applyMoves_invariant ops (NewTimelineView.SetNodes now nodes) h0
  refine ⟨hinv.2, ?_⟩
  unfold TimelineView.SelectedLane
  by_cases he : (applyMoves (NewTimelineView.SetNodes now nodes) ops).lanes = []
  · rw [if_neg]
    · simp [he]
    · rw [hinv.1 he, he]
      simp
  · rw [if_pos (hinv.2 he)]
    obtain ⟨hge, hlt⟩ := hinv.2 he
    constructor
    · intro hnone
      have hlen := List.get?_eq_none.mp hnone
      omega
    · intro h0'
      exact absurd h0' he


/-- C9, witness: with one activity lane the selection index is in bounds
after a move, and with no nodes `SelectedLane` is `none`. -/
theorem selection_within_bounds_witness :
    (0 ≤ (applyMoves
      (NewTimelineView.SetNodes 1000
        [mkNode "A" .GroupActivity "Running" 100 none []]) [(5, 10)]).selectedLane) ∧
    (applyMoves (NewTimelineView.SetNodes 0 []) []).SelectedLane = none := by
  constructor
  · exact ((selection_within_bounds 1000
      [mkNode "A" .GroupActivity "Running" 100 none []] [(5, 10)]).1
      (fun h => absurd h (List.cons_ne_nil _ _))).1
  · exact (selection_within_bounds 0 [] []).2.mpr rfl


theorem timelineKept_iff (n : EventTreeNode) :
    timelineKept n = true ↔
      ¬(n.Typ = .GroupWorkflow ∨ n.Typ = .GroupWorkflowTask) := by
  unfold timelineKept
  split
  · rename_i hc
    simp [hc]
  · rename_i hc
    simp [hc]

theorem setNodesStep_skip (now : Int) (tv : TimelineView) (n : EventTreeNode)
    (h : timelineKept n = false) : setNodesStep now tv n = tv := by
  have hc : n.Typ = .GroupWorkflow ∨ n.Typ = .GroupWorkflowTask := by
    by_contra hc
    rw [(timelineKept_iff n).mpr hc] at h
    cases h
  unfold setNodesStep
  rw [if_pos hc]

theorem setNodesStep_kept_startTime (now : Int) (tv : TimelineView)
    (n : EventTreeNode) (h : timelineKept n = true) :
    (setNodesStep now tv n).startTime =
      if n.StartTime < tv.startTime then n.StartTime else tv.startTime := by
  unfold setNodesStep
  rw [if_neg ((timelineKept_iff n).mp h)]

theorem setNodesStep_kept_endTime (now : Int) (tv : TimelineView)
    (n : EventTreeNode) (h : timelineKept n = true) :
    (setNodesStep now tv n).endTime =
      match n.EndTime with
      | some e => if tv.endTime < e then e else tv.endTime
      | none => if tv.endTime < now then now else tv.endTime := by
  unfold setNodesStep
  rw [if_neg ((timelineKept_iff n).mp h)]

theorem foldl_setNodesStep_filter (now : Int) (nodes : List EventTreeNode)
    (tv : TimelineView) :
    nodes.foldl (setNodesStep now) tv =
      (nodes.filter timelineKept).foldl (setNodesStep now) tv := by
  induction nodes generalizing tv with
  | nil => rfl
  | cons n rest ih =>
    cases hk : timelineKept n with
    | true =>
      rw [List.filter_cons_of_pos hk]
      simp only [List.foldl_cons]
      exact ih (setNodesStep now tv n)
    | false =>
      rw [List.filter_cons_of_neg (by simp [hk])]
      simp only [List.foldl_cons]
      rw [setNodesStep_skip now tv n hk]
      exact ih tv

theorem foldl_setNodesStep_startTime (now : Int)
    (kept : List EventTreeNode) (tv : TimelineView)
    (hk : ∀ n ∈ kept, timelineKept n = true) :
    (kept.foldl (setNodesStep now) tv).startTime ≤ tv.startTime ∧
    (∀ n ∈ kept, (kept.foldl (setNodesStep now) tv).startTime ≤ n.StartTime) ∧
    ((kept.foldl (setNodesStep now) tv).startTime = tv.startTime ∨
     ∃ n ∈ kept, (kept.foldl (setNodesStep now) tv).startTime = n.StartTime) := by
  induction kept generalizing tv with
  | nil => exact ⟨le_refl _, by simp, Or.inl rfl⟩
  | cons n rest ih =>
    have hkn : timelineKept n = true := hk n (by simp)
    have hkr : ∀ m ∈ rest, timelineKept m = true :=
      fun m hm => hk m (by simp [hm])
    obtain ⟨ih1, ih2, ih3⟩ := ih (setNodesStep now tv n) hkr
    rw [setNodesStep_kept_startTime now tv n hkn] at ih1 ih3
    simp only [List.foldl_cons]
    have hstep_le : (if n.StartTime < tv.startTime then n.StartTime
        else tv.startTime) ≤ tv.startTime := by
      split <;> omega
    have hstep_len : (if n.StartTime < tv.startTime then n.StartTime
        else tv.startTime) ≤ n.StartTime := by
      split <;> omega
    refine ⟨le_trans ih1 hstep_le, ?_, ?_⟩
    · intro m hm
      rcases List.mem_cons.mp hm with rfl | hm'
      · exact le_trans ih1 hstep_len
      · exact ih2 m hm'
    · rcases ih3 with heq | ⟨m, hm, heq⟩
      · rw [heq]
        split
        · exact Or.inr ⟨n, by simp⟩
        · exact Or.inl rfl
      · exact Or.inr ⟨m, by simp [hm], heq⟩

theorem foldl_setNodesStep_endTime (now : Int)
    (kept : List EventTreeNode) (tv : TimelineView)
    (hk : ∀ n ∈ kept, timelineKept n = true) :
    tv.endTime ≤ (kept.foldl (setNodesStep now) tv).endTime ∧
    (∀ n ∈ kept, ∀ e : Int, n.EndTime = some e →
      e ≤ (kept.foldl (setNodesStep now) tv).endTime) ∧
    ((kept.foldl (setNodesStep now) tv).endTime = tv.endTime ∨
     (∃ n ∈ kept, n.EndTime =
        some (kept.foldl (setNodesStep now) tv).endTime) ∨
     ((∃ n ∈ kept, n.EndTime = none) ∧
      (kept.foldl (setNodesStep now) tv).endTime = now)) := by
  induction kept generalizing tv with
  | nil => exact ⟨le_refl _, by simp, Or.inl rfl⟩
  | cons n rest ih =>
    have hkn : timelineKept n = true := hk n (by simp)
    have hkr : ∀ m ∈ rest, timelineKept m = true :=
      fun m hm => hk m (by simp [hm])
    obtain ⟨ih1, ih2, ih3⟩ := ih (setNodesStep now tv n) hkr
    rw [setNodesStep_kept_endTime now tv n hkn] at ih1 ih3
    simp only [List.foldl_cons]
    refine ⟨?_, ?_, ?_⟩
    · refine le_trans ?_ ih1
      cases hE : n.EndTime with
      | some e =>
        simp only
        split <;> omega
      | none =>
        simp only
        split <;> omega
    · intro m hm e he
      rcases List.mem_cons.mp hm with rfl | hm'
      · refine le_trans ?_ ih1
        rw [he]
        simp only
        split <;> omega
      · exact ih2 m hm' e he
    · rcases ih3 with heq | ⟨m, hm, heq⟩ | ⟨⟨m, hm, hmo⟩, heq⟩
      · cases hE : n.EndTime with
        | some e =>
          rw [hE] at heq
          simp only at heq
          rw [heq]
          split
          · exact Or.inr (Or.inl ⟨n, by simp, hE⟩)
          · exact Or.inl rfl
        | none =>
          rw [hE] at heq
          simp only at heq
          rw [heq]
          split
          · exact Or.inr (Or.inr ⟨⟨n, by simp, hE⟩, rfl⟩)
          · exact Or.inl rfl
      · exact Or.inr (Or.inl ⟨m, by simp [hm], heq⟩)
      · exact Or.inr (Or.inr ⟨⟨m, by simp [hm], hmo⟩, heq⟩)


theorem SetNodes_eq (tv : TimelineView) (now : Int)
    (nodes : List EventTreeNode) (hne : nodes.isEmpty = false) :
    tv.SetNodes now nodes =
      (fun F : TimelineView =>
        if F.endTime = 0 ∨ F.endTime < F.startTime then
          { F with endTime := F.startTime + minuteNs }
        else F)
        (nodes.foldl (setNodesStep now)
          { tv with
            lanes := []
            selectedLane := 0
            startTime := now
            endTime := 0 }) := by
  unfold TimelineView.SetNodes
  rw [if_neg (by simp [hne])]


/-- C4: the amended time-range characterization of `SetNodes` on a non-empty
node list (with nonnegative timestamps).  The range start is the minimum of
"now" and the non-filtered nodes' start times; the range end is an upper
bound of every closed node's end time, never precedes the start, and is
either exactly the one-minute fallback `start + 1min` (taken only when the
computed maximum is zero or precedes the start), or exactly some closed
node's end time, or exactly "now" while an unterminated node exists.  In
particular the width is not floored to one minute outside the fallback
case. -/
theorem timeline_range_characterized (now : Int)
    (nodes : List EventTreeNode) (hne : nodes ≠ [])
    (hpos : ∀ n ∈ nodes, 0 ≤ n.StartTime ∧
      ∀ e : Int, n.EndTime = some e → 0 < e) :
    ((NewTimelineView.SetNodes now nodes).startTime ≤ now ∧
     (∀ n ∈ nodes.filter timelineKept,
        (NewTimelineView.SetNodes now nodes).startTime ≤ n.StartTime) ∧
     ((NewTimelineView.SetNodes now nodes).startTime = now ∨
      ∃ n ∈ nodes.filter timelineKept,
        (NewTimelineView.SetNodes now nodes).startTime = n.StartTime)) ∧
    (∀ n ∈ nodes.filter timelineKept, ∀ e : Int, n.EndTime = some e →
      e ≤ (NewTimelineView.SetNodes now nodes).endTime) ∧
    ((NewTimelineView.SetNodes now nodes).startTime ≤
      (NewTimelineView.SetNodes now nodes).endTime) ∧
    ((NewTimelineView.SetNodes now nodes).endTime =
        (NewTimelineView.SetNodes now nodes).startTime + minuteNs ∨
     (∃ n ∈ nodes.filter timelineKept,
        n.EndTime = some (NewTimelineView.SetNodes now nodes).endTime) ∨
     ((∃ n ∈ nodes.filter timelineKept, n.EndTime = none) ∧
      (NewTimelineView.SetNodes now nodes).endTime = now)) := by
  have hm : (0 : Int) < minuteNs := by decide
  have hemp : nodes.isEmpty = false := by
    cases nodes with
    | nil => exact absurd rfl hne
    | cons a l => rfl
  have hkmem : ∀ n ∈ nodes.filter timelineKept, timelineKept n = true :=
    fun n hn => (List.mem_filter.mp hn).2
  have hksub : ∀ n ∈ nodes.filter timelineKept, n ∈ nodes :=
    fun n hn => (List.mem_filter.mp hn).1
  rw [SetNodes_eq NewTimelineView now nodes hemp]
  dsimp only
  rw [foldl_setNodesStep_filter]
  obtain ⟨ha1, ha2, ha3⟩ := foldl_setNodesStep_startTime now
    (nodes.filter timelineKept)
    { NewTimelineView with
      lanes := []
      selectedLane := 0
      startTime := now
      endTime := 0 } hkmem
  obtain ⟨hb1, hb2, hb3⟩ := foldl_setNodesStep_endTime now
    (nodes.filter timelineKept)
    { NewTimelineView with
      lanes := []
      selectedLane := 0
      startTime := now
      endTime := 0 } hkmem
  set F := (nodes.filter timelineKept).foldl (setNodesStep now)
    { NewTimelineView with
      lanes := []
      selectedLane := 0
      startTime := now
      endTime := 0 } with hF
  by_cases hc : F.endTime = 0 ∨ F.endTime < F.startTime
  · rw [if_pos hc]
    dsimp only
    refine ⟨⟨ha1, ha2, ha3⟩, ?_, by omega, Or.inl rfl⟩
    intro n hn e he
    have he' := hb2 n hn e he
    have hep := (hpos n (hksub n hn)).2 e he
    rcases hc with hc | hc <;> omega
  · rw [if_neg hc]
    push_neg at hc
    obtain ⟨hc1, hc2⟩ := hc
    refine ⟨⟨ha1, ha2, ha3⟩, hb2, hc2, ?_⟩
    rcases hb3 with heq | h | h
    · exact absurd heq hc1
    · exact Or.inr (Or.inl h)
    · exact Or.inr (Or.inr h)


/-- C4, counterexample: a single closed activity node spanning one
nanosecond, [600, 601], with "now" = 10000, yields the range [600, 601] of
width 1 ns: SetNodes does not floor the range width to one minute (the
fallback only fires when the computed end is zero or precedes the start). -/
theorem timeline_min_width_counterexample :
    (NewTimelineView.SetNodes 10000
      [mkNode "A" .GroupActivity "Completed" 600 (some 601) []]).startTime =
        600 ∧
    (NewTimelineView.SetNodes 10000
      [mkNode "A" .GroupActivity "Completed" 600 (some 601) []]).endTime =
        601 ∧
    ¬ (minuteNs ≤
      (NewTimelineView.SetNodes 10000
        [mkNode "A" .GroupActivity "Completed" 600 (some 601) []]).endTime -
      (NewTimelineView.SetNodes 10000
        [mkNode "A" .GroupActivity "Completed" 600 (some 601)
          []]).startTime) := by
  refine ⟨rfl, rfl, ?_⟩
  intro h
  rw [show (NewTimelineView.SetNodes 10000
      [mkNode "A" .GroupActivity "Completed" 600 (some 601) []]).endTime =
        601 from rfl,
    show (NewTimelineView.SetNodes 10000
      [mkNode "A" .GroupActivity "Completed" 600 (some 601) []]).startTime =
        600 from rfl] at h
  exact absurd h (by decide)

/-- C4, witness: the characterization applied to one closed timer node. -/
theorem timeline_range_characterized_witness :
    (NewTimelineView.SetNodes 10000
      [mkNode "B" .GroupTimer "Fired" 500 (some 700) []]).startTime ≤
      10000 :=
  (timeline_range_characterized 10000
    [mkNode "B" .GroupTimer "Fired" 500 (some 700) []]
    (List.cons_ne_nil _ _)
    (by
      intro n hn
      rw [List.mem_singleton] at hn
      subst hn
      refine ⟨by decide, ?_⟩
      intro e he
      have h7 : (700 : Int) = e := by
        simpa [mkNode, EventTreeNode.EndTime, EventTreeNode.core] using he
      omega)).1.1


end Loom
